import Mathlib

/-!
# Verification of the Zixir resilience/orchestration layer

Shallow embedding of the Python resilience core
(`priv/python/vector_db_pool.py`, `priv/python/vector_db_bridge.py`,
`priv/python/odbc_bridge.py`) and proofs about it.

Modelling conventions:
* Wall-clock instants and durations (`time.time()` values, delays, TTLs)
  are rationals (`ℚ`); each operation receives the current instant as an
  explicit `now` argument.
* Cache keys, cached result payloads and exception payloads are opaque
  naturals; the SHA-256 key derivation of `QueryCache._make_key` is treated
  as an injective key and not re-modelled.
* Python code that would raise on a degenerate input (e.g. `min()` over an
  empty sequence, arithmetic on `None`) is embedded with `Option`, `none`
  marking the raising execution.
* Mutation is explicit state passing; `with self._lock` blocks are the
  sequential atomic steps of the model.
-/

namespace VectorDbPool

/-- One entry of `QueryCache._cache`: the payload stored under a key together
with its insertion timestamp (`{"results": ..., "timestamp": time.time()}`). -/
structure QEntry where
  results : Nat
  timestamp : ℚ
  deriving Repr, DecidableEq

/-- State of `QueryCache`: configuration plus the dict `_cache` (an
insertion-ordered association list, as for a Python dict) and the hit/miss
counters. -/
structure QueryCache where
  maxSize : Nat
  ttlSeconds : ℚ
  cache : List (Nat × QEntry)
  hits : Nat
  misses : Nat
  deriving Repr, DecidableEq

/-- Dict lookup `self._cache[key]` / `key in self._cache`. -/
def lookupE : List (Nat × QEntry) → Nat → Option QEntry
  | [], _ => none
  | (k, e) :: rest, key => if k = key then some e else lookupE rest key

/-- Dict deletion `del self._cache[key]` (removes the unique binding of the
key; a no-op when the key is absent, matching `dict.pop(key, None)`). -/
def eraseKey : List (Nat × QEntry) → Nat → List (Nat × QEntry)
  | [], _ => []
  | (k, e) :: rest, key => if k = key then rest else (k, e) :: eraseKey rest key

/-- Dict assignment `self._cache[key] = entry`: overwrites in place when the
key is present (Python dicts keep the original position), appends at the end
otherwise. -/
def updateEntry : List (Nat × QEntry) → Nat → QEntry → List (Nat × QEntry)
  | [], key, e => [(key, e)]
  | (k, e') :: rest, key, e =>
    if k = key then (key, e) :: rest else (k, e') :: updateEntry rest key e

/-- `min(self._cache.keys(), key=lambda k: self._cache[k]["timestamp"])`:
the first key (in insertion order) holding the minimal timestamp, `none` on
an empty dict (where Python's `min` raises `ValueError`). -/
def oldestEntry : List (Nat × QEntry) → Option (Nat × ℚ)
  | [] => none
  | (k, e) :: rest =>
    match oldestEntry rest with
    | none => some (k, e.timestamp)
    | some (k', t') =>
      if e.timestamp ≤ t' then some (k, e.timestamp) else some (k', t')

/-- `QueryCache.get` (vector_db_pool.py lines 216-237), with the query
parameters collapsed into the derived key.  Returns the cached payload (or
`none` on a miss) together with the updated cache state. -/
def QueryCache.get (c : QueryCache) (key : Nat) (now : ℚ) :
    Option Nat × QueryCache :=
  match lookupE c.cache key with
  | none => (none, { c with misses := c.misses + 1 })
  | some entry =>
    if now - entry.timestamp > c.ttlSeconds then
      (none, { c with cache := eraseKey c.cache key, misses := c.misses + 1 })
    else
      (some entry.results, { c with hits := c.hits + 1 })

/-- `QueryCache.set` (vector_db_pool.py lines 239-255).  `none` models the
`ValueError` Python's `min` raises when the capacity test fires on an empty
dict (only possible with `max_size = 0`). -/
def QueryCache.set (c : QueryCache) (key : Nat) (results : Nat) (now : ℚ) :
    Option QueryCache :=
  if c.cache.length ≥ c.maxSize then
    match oldestEntry c.cache with
    | none => none
    | some (oldK, _) =>
      some { c with cache := updateEntry (eraseKey c.cache oldK) key ⟨results, now⟩ }
  else
    some { c with cache := updateEntry c.cache key ⟨results, now⟩ }

/-- `QueryCache.invalidate` (vector_db_pool.py lines 275-280):
`self._cache.pop(key, None)`. -/
def QueryCache.invalidate (c : QueryCache) (key : Nat) : QueryCache :=
  { c with cache := eraseKey c.cache key }

/-- Keys of the embedded cache dict, in insertion order. -/
def keysOf (l : List (Nat × QEntry)) : List Nat := l.map Prod.fst

/-- Well-formedness of the embedded dict: keys are unique (inherent to a
Python dict, which the association list embeds). -/
def keysND (l : List (Nat × QEntry)) : Prop := (keysOf l).Nodup

instance (l : List (Nat × QEntry)) : Decidable (keysND l) :=
  inferInstanceAs (Decidable (keysOf l).Nodup)

/-- The three circuit-breaker states (`CLOSED`, `OPEN`, `HALF_OPEN`). -/
inductive BreakerState where
  | closed
  | opened
  | halfOpen
  deriving Repr, DecidableEq

/-- State of `CircuitBreaker` (vector_db_pool.py lines 283-387): thresholds,
cooldown, current state, counters and the instant of the last failure
(`None` before any failure has been recorded). -/
structure CircuitBreaker where
  failureThreshold : Nat
  successThreshold : Nat
  timeoutSeconds : ℚ
  state : BreakerState
  failureCount : Nat
  successCount : Nat
  lastFailureTime : Option ℚ
  deriving Repr, DecidableEq

/-- `CircuitBreaker.can_execute` (lines 329-343).  Returns whether execution
is allowed together with the (possibly advanced) breaker state; the outer
`Option` is `none` exactly when the Python code would subtract `None` from a
float (Open with no recorded failure, unreachable through the public API). -/
def CircuitBreaker.canExecute (b : CircuitBreaker) (now : ℚ) :
    Option (Bool × CircuitBreaker) :=
  match b.state with
  | .closed => some (true, b)
  | .opened =>
    match b.lastFailureTime with
    | none => none
    | some t =>
      if now - t ≥ b.timeoutSeconds then
        some (true, { b with state := .halfOpen, successCount := 0 })
      else
        some (false, b)
  | .halfOpen => some (true, b)

/-- `CircuitBreaker.record_success` (lines 345-354). -/
def CircuitBreaker.recordSuccess (b : CircuitBreaker) : CircuitBreaker :=
  match b.state with
  | .halfOpen =>
    if b.successCount + 1 ≥ b.successThreshold then
      { b with successCount := b.successCount + 1, state := .closed, failureCount := 0 }
    else
      { b with successCount := b.successCount + 1 }
  | .closed => { b with failureCount := 0 }
  | .opened => b

/-- `CircuitBreaker.record_failure` (lines 356-365); `now` is the value of
`time.time()` stored into `_last_failure_time`. -/
def CircuitBreaker.recordFailure (b : CircuitBreaker) (now : ℚ) : CircuitBreaker :=
  let b' := { b with failureCount := b.failureCount + 1, lastFailureTime := some now }
  match b.state with
  | .halfOpen => { b' with state := .opened }
  | .closed =>
    if b'.failureCount ≥ b.failureThreshold then { b' with state := .opened } else b'
  | .opened => b'

/-- `record_failure` iterated `n` times (each at instant `now`), i.e. `n`
consecutive failures with no intervening success. -/
def CircuitBreaker.iterateFailures (b : CircuitBreaker) : Nat → ℚ → CircuitBreaker
  | 0, _ => b
  | n + 1, now => (b.iterateFailures n now).recordFailure now

/-- Configuration of the vector-store `ConnectionPool` (lines 76-94). -/
structure PoolCfg where
  maxConnections : Nat
  connectionTimeout : ℚ
  maxRetries : Nat
  retryBaseDelay : ℚ
  retryMaxDelay : ℚ
  deriving Repr, DecidableEq

/-- What one backend invocation does: return a value, raise a transient
error (`ConnectionError` / `TimeoutError` / `OSError`), or raise any other
exception.  Payloads are opaque tags identifying the exception object. -/
inductive OpOutcome where
  | ok (v : Nat)
  | transientFail (e : Nat)
  | permanentFail (e : Nat)
  deriving Repr, DecidableEq

/-- What one iteration of the `execute_with_retry` loop observes: either the
semaphore acquire times out (`TimeoutError("Connection pool exhausted")`,
raised before the operation is invoked) or the operation is invoked and
produces an `OpOutcome`. -/
inductive AttemptOutcome where
  | acquireTimeout
  | opRun (o : OpOutcome)
  deriving Repr, DecidableEq

/-- Whether the attempt raised one of the retryable exception classes
`(ConnectionError, TimeoutError, OSError)` of line 136. -/
def AttemptOutcome.isTransient : AttemptOutcome → Bool
  | .acquireTimeout => true
  | .opRun (.transientFail _) => true
  | _ => false

/-- Exception escaping `execute_with_retry`. -/
inductive RetryErr where
  | poolExhausted
  | transient (e : Nat)
  | permanent (e : Nat)
  deriving Repr, DecidableEq

instance {ε α : Type} [DecidableEq ε] [DecidableEq α] : DecidableEq (Except ε α)
  | .error e, .error e' =>
    if h : e = e' then .isTrue (by rw [h])
    else .isFalse (by intro hc; cases hc; exact h rfl)
  | .error _, .ok _ => .isFalse (by intro hc; cases hc)
  | .ok _, .error _ => .isFalse (by intro hc; cases hc)
  | .ok a, .ok b =>
    if h : a = b then .isTrue (by rw [h])
    else .isFalse (by intro hc; cases hc; exact h rfl)

/-- The exception re-raised when the retry budget is exhausted on the given
attempt outcome (only meaningful for transient outcomes). -/
def AttemptOutcome.exhaustErr : AttemptOutcome → RetryErr
  | .acquireTimeout => .poolExhausted
  | .opRun (.transientFail e) => .transient e
  | _ => .poolExhausted

/-- `min(self.retry_base_delay * (2 ** attempt), self.retry_max_delay)`
(lines 142-145). -/
def backoffDelay (cfg : PoolCfg) (attempt : Nat) : ℚ :=
  min (cfg.retryBaseDelay * 2 ^ attempt) cfg.retryMaxDelay

/-- Observable outcome of one `execute_with_retry` call: the returned value
or escaping exception, the sequence of `time.sleep` delays in order, how
often the operation was invoked, the metrics samples recorded
(`record_success` / `record_failure` calls), and the last assignment to
`self._healthy` during the call, if any. -/
structure RetryRun where
  result : Except RetryErr Nat
  sleeps : List ℚ
  invocations : Nat
  succSamples : Nat
  failSamples : Nat
  healthySet : Option Bool
  deriving Repr, DecidableEq

/-- The loop body of `ConnectionPool.execute_with_retry` (lines 116-160)
from iteration `attempt` on, with `remaining` further iterations available
after the current one (`remaining = max_retries - attempt`). -/
def executeWithRetryAux (cfg : PoolCfg) (attempts : Nat → AttemptOutcome)
    (attempt remaining : Nat) : RetryRun :=
  match attempts attempt, remaining with
    | .opRun (.ok v), _ => ⟨.ok v, [], 1, 1, 0, some true⟩
    | .acquireTimeout, r + 1 =>
      let rest := executeWithRetryAux cfg attempts (attempt + 1) r
      ⟨rest.result, backoffDelay cfg attempt :: rest.sleeps, rest.invocations,
        rest.succSamples, rest.failSamples + 1, rest.healthySet⟩
    | .acquireTimeout, 0 => ⟨.error .poolExhausted, [], 0, 0, 1, some false⟩
    | .opRun (.transientFail _), r + 1 =>
      let rest := executeWithRetryAux cfg attempts (attempt + 1) r
      ⟨rest.result, backoffDelay cfg attempt :: rest.sleeps, rest.invocations + 1,
        rest.succSamples, rest.failSamples + 1, rest.healthySet⟩
    | .opRun (.transientFail e), 0 => ⟨.error (.transient e), [], 1, 0, 1, some false⟩
    | .opRun (.permanentFail e), _ => ⟨.error (.permanent e), [], 1, 0, 1, none⟩

/-- `ConnectionPool.execute_with_retry` (lines 96-160), with the behaviour
of the `attempt`-th loop iteration abstracted as `attempts attempt`. -/
def executeWithRetry (cfg : PoolCfg) (attempts : Nat → AttemptOutcome) : RetryRun :=
  executeWithRetryAux cfg attempts 0 cfg.maxRetries

end VectorDbPool

namespace VectorDbBridge

open VectorDbPool

/-- An exception escaping the breaker-guarded block of
`VectorDBBridge.search`: the backend exception itself (transient or
permanent kind), the `CircuitBreakerOpen` raised by `CircuitBreaker.__enter__`,
or the `ValueError` a degenerate `QueryCache.set` raises inside the guarded
operation. -/
inductive Exc where
  | opTransient (e : Nat)
  | opPermanent (e : Nat)
  | breakerOpen
  | cacheSetErr
  deriving Repr, DecidableEq

/-- Observable outcome of one `VectorDBBridge.search` call: the returned
results or escaping exception, the final cache and breaker states, and how
often the backend operation was invoked. -/
structure SearchRes where
  result : Except Exc Nat
  cache : Option QueryCache
  breaker : CircuitBreaker
  invocations : Nat
  deriving Repr, DecidableEq

/-- `self._cache.invalidate(...)` guarded by `if self._cache:`. -/
def invalidateOpt (cache : Option QueryCache) (key : Nat) : Option QueryCache :=
  match cache with
  | some c => some (c.invalidate key)
  | none => none

/-- The closure `operation` defined inside `VectorDBBridge.search`
(vector_db_bridge.py lines 512-530): run the backend search, then — still
inside the guarded block — write the results through the cache. -/
def runOperation (cache : Option QueryCache) (useCache : Bool) (key : Nat)
    (opResult : OpOutcome) (now : ℚ) : Except Exc (Nat × Option QueryCache) :=
  match opResult with
  | .transientFail e => .error (.opTransient e)
  | .permanentFail e => .error (.opPermanent e)
  | .ok results =>
    match useCache, cache with
    | true, some c =>
      match c.set key results now with
      | some c' => .ok (results, some c')
      | none => .error .cacheSetErr
    | _, _ => .ok (results, cache)

/-- The cache-miss tail of `VectorDBBridge.search`: the
`try: return self._with_circuit_breaker(operation) except Exception: ...`
block (lines 532-538) together with the breaker context manager
(`__enter__`/`__exit__`, vector_db_pool.py lines 313-327).  The backend is
abstracted as `ops`, where `ops i` is what the `i`-th invocation of the
wrapped operation would produce; the code invokes it once, so only `ops 0`
is consulted.  `none` models the unreachable `None`-arithmetic crash of
`can_execute`. -/
def searchMiss (cache : Option QueryCache) (b : CircuitBreaker) (key : Nat)
    (useCache : Bool) (ops : Nat → OpOutcome) (now : ℚ) : Option SearchRes :=
  match b.canExecute now with
  | none => none
  | some (false, b') =>
    some ⟨.error .breakerOpen, invalidateOpt cache key, b', 0⟩
  | some (true, b') =>
    match runOperation cache useCache key (ops 0) now with
    | .ok (v, cache') => some ⟨.ok v, cache', b'.recordSuccess, 1⟩
    | .error exc =>
      some ⟨.error exc, invalidateOpt cache key, b'.recordFailure now, 1⟩

/-- `VectorDBBridge.search` (vector_db_bridge.py lines 496-538), query
parameters collapsed into the derived cache key.  The cache-hit fast path
returns without touching breaker or backend; on a miss the guarded
operation runs via `searchMiss`. -/
def search (cache : Option QueryCache) (b : CircuitBreaker) (key : Nat)
    (useCache : Bool) (ops : Nat → OpOutcome) (now : ℚ) : Option SearchRes :=
  match useCache, cache with
  | true, some c =>
    match c.get key now with
    | (some v, c') => some ⟨.ok v, some c', b, 0⟩
    | (none, c') => searchMiss (some c') b key useCache ops now
  | _, _ => searchMiss cache b key useCache ops now

/-- An exception escaping the pipeline claim C1 describes: a
`CircuitBreakerOpen` denial or an exception escaping the retry executor. -/
inductive SpecErr where
  | breakerOpen
  | retry (er : RetryErr)
  deriving Repr, DecidableEq

/-- Outcome of the pipeline claim C1 describes (result, final cache and
breaker, operation invocation count). -/
structure SpecRes where
  result : Except SpecErr Nat
  cache : Option QueryCache
  breaker : CircuitBreaker
  invocations : Nat
  deriving Repr, DecidableEq

/-- Modelled from the spec (§4.4, claim C1), for comparison with `search`:
on a cache miss the operation is called through breaker-guard →
resource-pool retry-executor (`ConnectionPool.execute_with_retry`, so
transient failures are retried) → operation, the result is written through
to the cache and returned.  Pool permits are taken as always available;
`ops i` is the outcome of the `i`-th operation invocation. -/
def searchSpecPipeline (cache : Option QueryCache) (b : CircuitBreaker)
    (cfg : PoolCfg) (key : Nat) (useCache : Bool) (ops : Nat → OpOutcome)
    (now : ℚ) : Option SpecRes :=
  match useCache, cache with
  | true, some c =>
    match c.get key now with
    | (some v, c') => some ⟨.ok v, some c', b, 0⟩
    | (none, c') =>
      match b.canExecute now with
      | none => none
      | some (false, b') => some ⟨.error .breakerOpen, invalidateOpt (some c') key, b', 0⟩
      | some (true, b') =>
        let run := executeWithRetry cfg (fun i => .opRun (ops i))
        match run.result with
        | .ok v =>
          match QueryCache.set c' key v now with
          | some c'' => some ⟨.ok v, some c'', b'.recordSuccess, run.invocations⟩
          | none => none
        | .error er =>
          some ⟨.error (.retry er), invalidateOpt (some c') key, b'.recordFailure now,
            run.invocations⟩
  | _, _ => none

end VectorDbBridge

namespace OdbcBridge

/-- State of the ODBC `ConnectionPool` (odbc_bridge.py lines 54-124):
`_pool` is the stack of idle connections (head = most recently returned,
matching `list.append`/`list.pop`), `_active` the counter incremented when
a connection is created, `maxPoolSize` the config bound.  Connections are
opaque tags. -/
structure ConnectionPool where
  maxPoolSize : Nat
  pool : List Nat
  active : Nat
  deriving Repr, DecidableEq

/-- `available_count` (lines 120-124): `len(self._pool)`. -/
def ConnectionPool.availableCount (p : ConnectionPool) : Nat := p.pool.length

/-- `PoolExhaustedError`. -/
inductive PoolErr where
  | poolExhausted
  deriving Repr, DecidableEq

/-- `ConnectionPool.get_connection` (lines 64-76): pop an idle connection,
or create a new one (fresh tag, `_active += 1`) unless `_active` has
reached `max_pool_size`. -/
def ConnectionPool.getConnection (p : ConnectionPool) :
    Except PoolErr (Nat × ConnectionPool) :=
  match p.pool with
  | c :: rest => .ok (c, { p with pool := rest })
  | [] =>
    if p.active ≥ p.maxPoolSize then .error .poolExhausted
    else .ok (p.active, { p with active := p.active + 1 })

/-- `ConnectionPool.return_connection` (lines 78-82): re-queue the
connection, but only when `_active > 0`; `_active` itself is not touched. -/
def ConnectionPool.returnConnection (p : ConnectionPool) (c : Nat) : ConnectionPool :=
  if p.active > 0 then { p with pool := c :: p.pool } else p

/-- `PooledConnection.close` (lines 141-145): return the connection to the
pool the first time only, tracked by the `_closed` flag. -/
def closePooled (p : ConnectionPool) (c : Nat) (closed : Bool) :
    ConnectionPool × Bool :=
  if closed then (p, closed) else (p.returnConnection c, true)

end OdbcBridge

namespace VectorDbPool

theorem eraseKey_sublist (l : List (Nat × QEntry)) (key : Nat) :
    List.Sublist (eraseKey l key) l := by
  induction l with
  | nil => simp [eraseKey]
  | cons p rest ih =>
    obtain ⟨k, e⟩ := p
    by_cases h : k = key
    · simp only [eraseKey, if_pos h]
      exact List.sublist_cons_self _ _
    · simp only [eraseKey, if_neg h]
      exact ih.cons₂ (k, e)

theorem keysND_eraseKey {l : List (Nat × QEntry)} (h : keysND l) (key : Nat) :
    keysND (eraseKey l key) :=
  ((eraseKey_sublist l key).map Prod.fst).nodup h

theorem eraseKey_length_le (l : List (Nat × QEntry)) (key : Nat) :
    (eraseKey l key).length ≤ l.length :=
  (eraseKey_sublist l key).length_le

theorem lookupE_eq_none_of_not_mem {l : List (Nat × QEntry)} {key : Nat}
    (h : key ∉ keysOf l) : lookupE l key = none := by
  induction l with
  | nil => rfl
  | cons p rest ih =>
    obtain ⟨k, e⟩ := p
    simp only [keysOf, List.map_cons, List.mem_cons] at h
    push_neg at h
    simp [lookupE, Ne.symm h.1, ih h.2]

theorem lookupE_eraseKey_self {l : List (Nat × QEntry)} (h : keysND l) (key : Nat) :
    lookupE (eraseKey l key) key = none := by
  induction l with
  | nil => rfl
  | cons p rest ih =>
    obtain ⟨k, e⟩ := p
    simp only [keysND, keysOf, List.map_cons, List.nodup_cons] at h
    by_cases hk : k = key
    · subst hk
      simp only [eraseKey, if_pos rfl]
      exact lookupE_eq_none_of_not_mem h.1
    · simp [eraseKey, hk, lookupE, ih h.2]

theorem mem_of_lookupE_eq_some {l : List (Nat × QEntry)} {key : Nat} {e : QEntry}
    (h : lookupE l key = some e) : (key, e) ∈ l := by
  induction l with
  | nil => simp [lookupE] at h
  | cons p rest ih =>
    obtain ⟨k, e'⟩ := p
    by_cases hk : k = key
    · subst hk
      simp [lookupE] at h
      simp [h]
    · simp only [lookupE, if_neg hk] at h
      exact List.mem_cons_of_mem _ (ih h)

theorem lookupE_eq_some_of_mem_nodup {l : List (Nat × QEntry)} {key : Nat}
    {e : QEntry} (hnd : keysND l) (h : (key, e) ∈ l) : lookupE l key = some e := by
  induction l with
  | nil => simp at h
  | cons p rest ih =>
    obtain ⟨k, e'⟩ := p
    simp only [keysND, keysOf, List.map_cons, List.nodup_cons] at hnd
    rcases List.mem_cons.mp h with h1 | h1
    · cases h1
      simp [lookupE]
    · have hk : k ≠ key := by
        intro hkk
        subst hkk
        exact hnd.1 (List.mem_map.mpr ⟨(k, e), h1, rfl⟩)
      simp [lookupE, hk, ih hnd.2 h1]

theorem eraseKey_length_of_mem {l : List (Nat × QEntry)} {key : Nat}
    (h : key ∈ keysOf l) : (eraseKey l key).length + 1 = l.length := by
  induction l with
  | nil => simp [keysOf] at h
  | cons p rest ih =>
    obtain ⟨k, e⟩ := p
    by_cases hk : k = key
    · simp [eraseKey, hk]
    · simp only [keysOf, List.map_cons, List.mem_cons] at h
      rcases h with h | h

      · exact absurd h.symm hk
      · simp [eraseKey, hk, List.length_cons]
        have := ih h
        omega

theorem updateEntry_length_le (l : List (Nat × QEntry)) (key : Nat) (e : QEntry) :
    (updateEntry l key e).length ≤ l.length + 1 := by
  induction l with
  | nil => simp [updateEntry]
  | cons p rest ih =>
    obtain ⟨k, e'⟩ := p
    by_cases hk : k = key
    · simp [updateEntry, hk]
    · simp only [updateEntry, if_neg hk, List.length_cons]
      omega

theorem eraseKey_of_lookup_none {l : List (Nat × QEntry)} {key : Nat}
    (h : lookupE l key = none) : eraseKey l key = l := by
  induction l with
  | nil => rfl
  | cons p rest ih =>
    obtain ⟨k, e⟩ := p
    by_cases hk : k = key
    · subst hk
      simp [lookupE] at h
    · simp only [lookupE, if_neg hk] at h
      simp [eraseKey, hk, ih h]

theorem oldestEntry_mem {l : List (Nat × QEntry)} {k : Nat} {t : ℚ}
    (h : oldestEntry l = some (k, t)) : ∃ e, (k, e) ∈ l ∧ e.timestamp = t := by
  induction l generalizing k t with
  | nil => simp [oldestEntry] at h
  | cons p rest ih =>
    obtain ⟨k', e'⟩ := p
    rcases hr : oldestEntry rest with - | ⟨kr, tr⟩ <;>
      simp only [oldestEntry, hr] at h
    · simp only [Option.some.injEq, Prod.mk.injEq] at h
      exact ⟨e', by simp [h.1], h.2⟩
    · by_cases hle : e'.timestamp ≤ tr
      · rw [if_pos hle] at h
        simp only [Option.some.injEq, Prod.mk.injEq] at h
        exact ⟨e', by simp [h.1], h.2⟩
      · rw [if_neg hle] at h
        simp only [Option.some.injEq, Prod.mk.injEq] at h
        obtain ⟨e, he, het⟩ := ih (h.1 ▸ h.2 ▸ hr)
        exact ⟨e, List.mem_cons_of_mem _ he, het⟩

theorem oldestEntry_eq_none {l : List (Nat × QEntry)}
    (h : oldestEntry l = none) : l = [] := by
  cases l with
  | nil => rfl
  | cons p rest =>
    obtain ⟨k, e⟩ := p
    rcases hr : oldestEntry rest with - | ⟨kr, tr⟩ <;>
      simp only [oldestEntry, hr] at h
    · simp at h
    · by_cases hle : e.timestamp ≤ tr <;> simp [hle] at h

theorem oldestEntry_min {l : List (Nat × QEntry)} {k : Nat} {t : ℚ}
    (h : oldestEntry l = some (k, t)) : ∀ p ∈ l, t ≤ p.2.timestamp := by
  induction l generalizing k t with
  | nil => simp
  | cons q rest ih =>
    obtain ⟨k', e'⟩ := q
    intro p hp
    rcases hr : oldestEntry rest with - | ⟨kr, tr⟩ <;>
      simp only [oldestEntry, hr] at h
    · simp only [Option.some.injEq, Prod.mk.injEq] at h
      have hrest := oldestEntry_eq_none hr
      subst hrest
      rcases List.mem_cons.mp hp with h1 | h1
      · subst h1; simp [← h.2]
      · simp at h1
    · by_cases hle : e'.timestamp ≤ tr
      · rw [if_pos hle] at h
        simp only [Option.some.injEq, Prod.mk.injEq] at h
        rcases List.mem_cons.mp hp with h1 | h1
        · subst h1; simp [← h.2]
        · exact h.2 ▸ le_trans hle (ih hr p h1)
      · rw [if_neg hle] at h
        simp only [Option.some.injEq, Prod.mk.injEq] at h
        rcases List.mem_cons.mp hp with h1 | h1
        · subst h1
          simp only
          exact h.2 ▸ le_of_lt (lt_of_not_le hle)
        · exact ih (h.1 ▸ h.2 ▸ hr) p h1

theorem oldestEntry_isSome {l : List (Nat × QEntry)} (h : l ≠ []) :
    (oldestEntry l).isSome = true := by
  cases l with
  | nil => exact absurd rfl h
  | cons p rest =>
    obtain ⟨k, e⟩ := p
    simp only [oldestEntry]
    rcases hr : oldestEntry rest with - | ⟨kr, tr⟩
    · simp
    · by_cases hle : e.timestamp ≤ tr <;> simp [hle]

theorem get_eq_hit {c : QueryCache} {key : Nat} {now : ℚ} {entry : QEntry}
    (hl : lookupE c.cache key = some entry)
    (hfresh : now - entry.timestamp ≤ c.ttlSeconds) :
    QueryCache.get c key now =
      (some entry.results, { c with hits := c.hits + 1 }) := by
  simp only [QueryCache.get, hl]
  rw [if_neg (not_lt.mpr hfresh)]

theorem get_eq_stale {c : QueryCache} {key : Nat} {now : ℚ} {entry : QEntry}
    (hl : lookupE c.cache key = some entry)
    (hstale : now - entry.timestamp > c.ttlSeconds) :
    QueryCache.get c key now =
      (none, { c with cache := eraseKey c.cache key, misses := c.misses + 1 }) := by
  simp only [QueryCache.get, hl]
  rw [if_pos hstale]

theorem get_eq_absent {c : QueryCache} {key : Nat} {now : ℚ}
    (hl : lookupE c.cache key = none) :
    QueryCache.get c key now = (none, { c with misses := c.misses + 1 }) := by
  simp only [QueryCache.get, hl]

theorem set_eq_at_capacity {c : QueryCache} {key v : Nat} {now : ℚ}
    {oldK : Nat} {oldT : ℚ} (hcap : c.cache.length ≥ c.maxSize)
    (holdest : oldestEntry c.cache = some (oldK, oldT)) :
    QueryCache.set c key v now =
      some { c with cache := updateEntry (eraseKey c.cache oldK) key ⟨v, now⟩ } := by
  simp only [QueryCache.set, if_pos hcap, holdest]

theorem set_eq_under_capacity {c : QueryCache} {key v : Nat} {now : ℚ}
    (hcap : c.cache.length < c.maxSize) :
    QueryCache.set c key v now =
      some { c with cache := updateEntry c.cache key ⟨v, now⟩ } := by
  simp only [QueryCache.set, if_neg (not_le.mpr hcap)]

theorem keysND_get {c : QueryCache} (hnd : keysND c.cache) (key : Nat) (now : ℚ) :
    keysND ((QueryCache.get c key now).2).cache := by
  rcases hl : lookupE c.cache key with - | entry
  · rw [get_eq_absent hl]
    exact hnd
  · by_cases hcond : now - entry.timestamp > c.ttlSeconds
    · rw [get_eq_stale hl hcond]
      exact keysND_eraseKey hnd key
    · rw [get_eq_hit hl (not_lt.mp hcond)]
      exact hnd

theorem recordFailure_closed_eq {b : CircuitBreaker} (now : ℚ)
    (hb : b.state = .closed) :
    b.recordFailure now =
      { b with
        failureCount := b.failureCount + 1
        lastFailureTime := some now
        state := (if b.failureCount + 1 ≥ b.failureThreshold then
          BreakerState.opened else BreakerState.closed) } := by
  obtain ⟨ft, st, ts, s, fc, sc, lf⟩ := b
  replace hb : s = BreakerState.closed := hb
  subst hb
  simp only [CircuitBreaker.recordFailure]
  by_cases h : fc + 1 ≥ ft
  · rw [if_pos h, if_pos h]
  · rw [if_neg h, if_neg h]

theorem recordSuccess_closed_eq {b : CircuitBreaker} (hb : b.state = .closed) :
    b.recordSuccess = { b with failureCount := 0 } := by
  obtain ⟨ft, st, ts, s, fc, sc, lf⟩ := b
  replace hb : s = BreakerState.closed := hb
  subst hb
  simp only [CircuitBreaker.recordSuccess]

theorem canExecute_closed_eq {b : CircuitBreaker} (now : ℚ)
    (hb : b.state = .closed) : b.canExecute now = some (true, b) := by
  obtain ⟨ft, st, ts, s, fc, sc, lf⟩ := b
  replace hb : s = BreakerState.closed := hb
  subst hb
  simp only [CircuitBreaker.canExecute]

theorem canExecute_open_denied {b : CircuitBreaker} {t now : ℚ}
    (hb : b.state = .opened) (hlft : b.lastFailureTime = some t)
    (hlt : now - t < b.timeoutSeconds) :
    b.canExecute now = some (false, b) := by
  obtain ⟨ft, st, ts, s, fc, sc, lf⟩ := b
  replace hb : s = BreakerState.opened := hb
  replace hlft : lf = some t := hlft
  subst hb
  subst hlft
  simp only [CircuitBreaker.canExecute]
  rw [if_neg (not_le.mpr hlt)]

theorem canExecute_open_allowed {b : CircuitBreaker} {t now : ℚ}
    (hb : b.state = .opened) (hlft : b.lastFailureTime = some t)
    (hge : now - t ≥ b.timeoutSeconds) :
    b.canExecute now =
      some (true, { b with state := .halfOpen, successCount := 0 }) := by
  obtain ⟨ft, st, ts, s, fc, sc, lf⟩ := b
  replace hb : s = BreakerState.opened := hb
  replace hlft : lf = some t := hlft
  subst hb
  subst hlft
  simp only [CircuitBreaker.canExecute]
  rw [if_pos hge]

theorem iterateFailures_spec (b : CircuitBreaker) (t : ℚ)
    (hb : b.state = .closed) (hc : b.failureCount = 0) :
    ∀ k, k ≤ b.failureThreshold →
      (b.iterateFailures k t).failureCount = k ∧
      (b.iterateFailures k t).failureThreshold = b.failureThreshold ∧
      (b.iterateFailures k t).state =
        (if b.failureThreshold ≤ k ∧ 1 ≤ k then .opened else .closed) := by
  intro k
  induction k with
  | zero =>
    intro _
    refine ⟨hc, rfl, ?_⟩
    rw [if_neg (by omega)]
    exact hb
  | succ k ih =>
    intro hk1
    obtain ⟨ihc, ihft, ihst⟩ := ih (by omega)
    have hclosed : (b.iterateFailures k t).state = .closed := by
      rw [ihst, if_neg (by omega)]
    show ((b.iterateFailures k t).recordFailure t).failureCount = k + 1 ∧
      ((b.iterateFailures k t).recordFailure t).failureThreshold =
        b.failureThreshold ∧
      ((b.iterateFailures k t).recordFailure t).state =
        (if b.failureThreshold ≤ k + 1 ∧ 1 ≤ k + 1 then BreakerState.opened
          else BreakerState.closed)
    rw [recordFailure_closed_eq t hclosed]
    refine ⟨?_, ?_, ?_⟩
    · show (b.iterateFailures k t).failureCount + 1 = k + 1
      rw [ihc]
    · show (b.iterateFailures k t).failureThreshold = b.failureThreshold
      exact ihft
    · show (if (b.iterateFailures k t).failureCount + 1 ≥
          (b.iterateFailures k t).failureThreshold then BreakerState.opened
          else BreakerState.closed) =
        (if b.failureThreshold ≤ k + 1 ∧ 1 ≤ k + 1 then BreakerState.opened
          else BreakerState.closed)
      rw [ihc, ihft]
      by_cases h : b.failureThreshold ≤ k + 1
      · rw [if_pos (by omega), if_pos (by omega)]
      · rw [if_neg (by omega), if_neg (by omega)]

theorem aux_eq_ok {cfg : PoolCfg} {att : Nat → AttemptOutcome} {a r v : Nat}
    (ho : att a = .opRun (.ok v)) :
    executeWithRetryAux cfg att a r = ⟨.ok v, [], 1, 1, 0, some true⟩ := by
  rw [executeWithRetryAux.eq_def, ho]

theorem aux_eq_perm {cfg : PoolCfg} {att : Nat → AttemptOutcome} {a r e : Nat}
    (ho : att a = .opRun (.permanentFail e)) :
    executeWithRetryAux cfg att a r = ⟨.error (.permanent e), [], 1, 0, 1, none⟩ := by
  rw [executeWithRetryAux.eq_def, ho]

theorem aux_eq_acq_zero {cfg : PoolCfg} {att : Nat → AttemptOutcome} {a : Nat}
    (ho : att a = .acquireTimeout) :
    executeWithRetryAux cfg att a 0 = ⟨.error .poolExhausted, [], 0, 0, 1, some false⟩ := by
  rw [executeWithRetryAux.eq_def, ho]

theorem aux_eq_trans_zero {cfg : PoolCfg} {att : Nat → AttemptOutcome} {a e : Nat}
    (ho : att a = .opRun (.transientFail e)) :
    executeWithRetryAux cfg att a 0 = ⟨.error (.transient e), [], 1, 0, 1, some false⟩ := by
  rw [executeWithRetryAux.eq_def, ho]

theorem aux_eq_acq_succ {cfg : PoolCfg} {att : Nat → AttemptOutcome} {a r : Nat}
    (ho : att a = .acquireTimeout) :
    executeWithRetryAux cfg att a (r + 1) =
      ⟨(executeWithRetryAux cfg att (a + 1) r).result,
        backoffDelay cfg a :: (executeWithRetryAux cfg att (a + 1) r).sleeps,
        (executeWithRetryAux cfg att (a + 1) r).invocations,
        (executeWithRetryAux cfg att (a + 1) r).succSamples,
        (executeWithRetryAux cfg att (a + 1) r).failSamples + 1,
        (executeWithRetryAux cfg att (a + 1) r).healthySet⟩ := by
  rw [executeWithRetryAux.eq_def, ho]

theorem aux_eq_trans_succ {cfg : PoolCfg} {att : Nat → AttemptOutcome} {a r e : Nat}
    (ho : att a = .opRun (.transientFail e)) :
    executeWithRetryAux cfg att a (r + 1) =
      ⟨(executeWithRetryAux cfg att (a + 1) r).result,
        backoffDelay cfg a :: (executeWithRetryAux cfg att (a + 1) r).sleeps,
        (executeWithRetryAux cfg att (a + 1) r).invocations + 1,
        (executeWithRetryAux cfg att (a + 1) r).succSamples,
        (executeWithRetryAux cfg att (a + 1) r).failSamples + 1,
        (executeWithRetryAux cfg att (a + 1) r).healthySet⟩ := by
  rw [executeWithRetryAux.eq_def, ho]

theorem aux_invocations_le (cfg : PoolCfg) (att : Nat → AttemptOutcome) :
    ∀ r a, (executeWithRetryAux cfg att a r).invocations ≤ r + 1 := by
  intro r
  induction r with
  | zero =>
    intro a
    rcases ho : att a with - | o
    · rw [aux_eq_acq_zero ho]; exact Nat.zero_le _
    · rcases o with v | e | e
      · rw [aux_eq_ok ho]
      · rw [aux_eq_trans_zero ho]
      · rw [aux_eq_perm ho]
  | succ r ih =>
    intro a
    rcases ho : att a with - | o
    · rw [aux_eq_acq_succ ho]
      exact le_trans (ih (a + 1)) (by omega)
    · rcases o with v | e | e
      · rw [aux_eq_ok ho]
        show 1 ≤ r + 1 + 1
        omega
      · rw [aux_eq_trans_succ ho]
        show (executeWithRetryAux cfg att (a + 1) r).invocations + 1 ≤ r + 1 + 1
        have := ih (a + 1)
        omega
      · rw [aux_eq_perm ho]
        show 1 ≤ r + 1 + 1
        omega

theorem aux_sleeps_char (cfg : PoolCfg) (att : Nat → AttemptOutcome) :
    ∀ r a i d, ((executeWithRetryAux cfg att a r).sleeps)[i]? = some d →
      d = backoffDelay cfg (a + i) ∧ (att (a + i)).isTransient = true ∧ i < r := by
  intro r
  induction r with
  | zero =>
    intro a i d hd
    exfalso
    rcases ho : att a with - | o
    · rw [aux_eq_acq_zero ho] at hd; simp at hd
    · rcases o with v | e | e
      · rw [aux_eq_ok ho] at hd; simp at hd
      · rw [aux_eq_trans_zero ho] at hd; simp at hd
      · rw [aux_eq_perm ho] at hd; simp at hd
  | succ r ih =>
    intro a i d hd
    rcases ho : att a with - | o
    · rw [aux_eq_acq_succ ho] at hd
      replace hd : (backoffDelay cfg a ::
          (executeWithRetryAux cfg att (a + 1) r).sleeps)[i]? = some d := hd
      cases i with
      | zero =>
        simp only [List.getElem?_cons_zero, Option.some.injEq] at hd
        refine ⟨by rw [Nat.add_zero, hd], ?_, by omega⟩
        rw [Nat.add_zero, ho]
        rfl
      | succ j =>
        rw [List.getElem?_cons_succ] at hd
        obtain ⟨h1, h2, h3⟩ := ih (a + 1) j d hd
        have hidx : a + 1 + j = a + (j + 1) := by omega
        rw [hidx] at h1 h2
        exact ⟨h1, h2, by omega⟩
    · rcases o with v | e | e
      · rw [aux_eq_ok ho] at hd; simp at hd
      · rw [aux_eq_trans_succ ho] at hd
        replace hd : (backoffDelay cfg a ::
            (executeWithRetryAux cfg att (a + 1) r).sleeps)[i]? = some d := hd
        cases i with
        | zero =>
          simp only [List.getElem?_cons_zero, Option.some.injEq] at hd
          refine ⟨by rw [Nat.add_zero, hd], ?_, by omega⟩
          rw [Nat.add_zero, ho]
          rfl
        | succ j =>
          rw [List.getElem?_cons_succ] at hd
          obtain ⟨h1, h2, h3⟩ := ih (a + 1) j d hd
          have hidx : a + 1 + j = a + (j + 1) := by omega
          rw [hidx] at h1 h2
          exact ⟨h1, h2, by omega⟩
      · rw [aux_eq_perm ho] at hd; simp at hd

theorem aux_transient_skip (cfg : PoolCfg) (att : Nat → AttemptOutcome) :
    ∀ k a r, k ≤ r → (∀ i, i < k → (att (a + i)).isTransient = true) →
      (executeWithRetryAux cfg att a r).result =
        (executeWithRetryAux cfg att (a + k) (r - k)).result ∧
      (executeWithRetryAux cfg att a r).sleeps.length =
        k + (executeWithRetryAux cfg att (a + k) (r - k)).sleeps.length ∧
      (executeWithRetryAux cfg att a r).failSamples =
        k + (executeWithRetryAux cfg att (a + k) (r - k)).failSamples ∧
      (executeWithRetryAux cfg att a r).succSamples =
        (executeWithRetryAux cfg att (a + k) (r - k)).succSamples ∧
      (executeWithRetryAux cfg att a r).invocations ≤
        k + (executeWithRetryAux cfg att (a + k) (r - k)).invocations ∧
      (executeWithRetryAux cfg att a r).healthySet =
        (executeWithRetryAux cfg att (a + k) (r - k)).healthySet := by
  intro k
  induction k with
  | zero =>
    intro a r _ _
    rw [Nat.add_zero, Nat.sub_zero]
    exact ⟨rfl, (Nat.zero_add _).symm, (Nat.zero_add _).symm, rfl, by omega, rfl⟩
  | succ k ih =>
    intro a r hkr htr
    obtain ⟨r', rfl⟩ : ∃ r', r = r' + 1 := ⟨r - 1, by omega⟩
    have h0 : (att a).isTransient = true := by
      have := htr 0 (by omega)
      rwa [Nat.add_zero] at this
    have htr' : ∀ i, i < k → (att (a + 1 + i)).isTransient = true := by
      intro i hi
      have := htr (i + 1) (by omega)
      rwa [show a + (i + 1) = a + 1 + i by omega] at this
    have hidx : a + 1 + k = a + (k + 1) := by omega
    have hsub : r' - k = r' + 1 - (k + 1) := by omega
    obtain ⟨i1, i2, i3, i4, i5, i6⟩ := ih (a + 1) r' (by omega) htr'
    rw [hidx, hsub] at i1 i2 i3 i4 i5 i6
    rcases ho : att a with - | o
    · rw [aux_eq_acq_succ ho]
      refine ⟨i1, ?_, ?_, i4, ?_, i6⟩
      · show (backoffDelay cfg a ::
            (executeWithRetryAux cfg att (a + 1) r').sleeps).length =
          k + 1 + (executeWithRetryAux cfg att (a + (k + 1))
            (r' + 1 - (k + 1))).sleeps.length
        rw [List.length_cons]
        omega
      · show (executeWithRetryAux cfg att (a + 1) r').failSamples + 1 =
          k + 1 + (executeWithRetryAux cfg att (a + (k + 1))
            (r' + 1 - (k + 1))).failSamples
        omega
      · show (executeWithRetryAux cfg att (a + 1) r').invocations ≤
          k + 1 + (executeWithRetryAux cfg att (a + (k + 1))
            (r' + 1 - (k + 1))).invocations
        omega
    · rcases o with v | e | e
      · rw [ho] at h0; simp [AttemptOutcome.isTransient] at h0
      · rw [aux_eq_trans_succ ho]
        refine ⟨i1, ?_, ?_, i4, ?_, i6⟩
        · show (backoffDelay cfg a ::
              (executeWithRetryAux cfg att (a + 1) r').sleeps).length =
            k + 1 + (executeWithRetryAux cfg att (a + (k + 1))
              (r' + 1 - (k + 1))).sleeps.length
          rw [List.length_cons]
          omega
        · show (executeWithRetryAux cfg att (a + 1) r').failSamples + 1 =
            k + 1 + (executeWithRetryAux cfg att (a + (k + 1))
              (r' + 1 - (k + 1))).failSamples
          omega
        · show (executeWithRetryAux cfg att (a + 1) r').invocations + 1 ≤
            k + 1 + (executeWithRetryAux cfg att (a + (k + 1))
              (r' + 1 - (k + 1))).invocations
          omega
      · rw [ho] at h0; simp [AttemptOutcome.isTransient] at h0

end VectorDbPool

namespace Claims

open VectorDbPool VectorDbBridge OdbcBridge

/-- **C3, counterexample.**  The claim says a stored entry is returned
exactly while `now - insertion_time < ttl_seconds`, so that once
`ttl_seconds` have elapsed (age ≥ ttl) `get` reports a miss.  The code
(vector_db_pool.py line 231) deletes only when `now - timestamp >
ttl_seconds`: with `ttl_seconds = 2`, an entry inserted at time 0 and read
at time 2 (age = ttl) is still returned as a hit, not a miss. -/
theorem c3_counterexample :
    (QueryCache.get ⟨10, 2, [(0, ⟨5, 0⟩)], 0, 0⟩ 0 2).1 = some 5 ∧
      ¬((QueryCache.get ⟨10, 2, [(0, ⟨5, 0⟩)], 0, 0⟩ 0 2).1 = none) ∧
      (QueryCache.get ⟨10, 2, [(0, ⟨5, 0⟩)], 0, 0⟩ 0 2).2.hits = 1 :=
  of_decide_eq_true (by with_unfolding_all rfl)

/-- **C3 (amended).**  For every stored entry, `QueryCache.get` returns the
cached value exactly when the entry is present and
`now - insertion_time ≤ ttl_seconds`; once strictly more than `ttl_seconds`
has elapsed (age > ttl) `get` reports a miss and removes the stale entry,
and every `get` call increments exactly one of the hit or miss counters. -/
theorem c3_get_ttl_semantics (c : QueryCache) (key : Nat) (now : ℚ)
    (hnd : keysND c.cache) :
    (∀ entry, lookupE c.cache key = some entry →
        now - entry.timestamp ≤ c.ttlSeconds →
        (QueryCache.get c key now).1 = some entry.results ∧
        (QueryCache.get c key now).2 = { c with hits := c.hits + 1 }) ∧
    (∀ entry, lookupE c.cache key = some entry →
        now - entry.timestamp > c.ttlSeconds →
        (QueryCache.get c key now).1 = none ∧
        lookupE ((QueryCache.get c key now).2).cache key = none ∧
        (QueryCache.get c key now).2.misses = c.misses + 1 ∧
        (QueryCache.get c key now).2.hits = c.hits) ∧
    (lookupE c.cache key = none →
        (QueryCache.get c key now).1 = none ∧
        (QueryCache.get c key now).2 = { c with misses := c.misses + 1 }) ∧
    (((QueryCache.get c key now).2.hits = c.hits + 1 ∧
        (QueryCache.get c key now).2.misses = c.misses) ∨
      ((QueryCache.get c key now).2.misses = c.misses + 1 ∧
        (QueryCache.get c key now).2.hits = c.hits)) := by
  refine ⟨?_, ?_, ?_, ?_⟩
  · intro entry hl hfresh
    rw [get_eq_hit hl hfresh]
    exact ⟨rfl, rfl⟩
  · intro entry hl hstale
    rw [get_eq_stale hl hstale]
    exact ⟨rfl, lookupE_eraseKey_self hnd key, rfl, rfl⟩
  · intro hl
    rw [get_eq_absent hl]
    exact ⟨rfl, rfl⟩
  · rcases hl : lookupE c.cache key with - | entry
    · rw [get_eq_absent hl]; right; exact ⟨rfl, rfl⟩
    · by_cases hcond : now - entry.timestamp > c.ttlSeconds
      · rw [get_eq_stale hl hcond]; right; exact ⟨rfl, rfl⟩
      · rw [get_eq_hit hl (not_lt.mp hcond)]; left; exact ⟨rfl, rfl⟩

/-- Witness for `c3_get_ttl_semantics` at a concrete cache: an entry
inserted at time 0 with `ttl = 2` read at time 1 is a hit, and after the
hit the counters moved by exactly one. -/
theorem c3_get_ttl_semantics_witness :
    (QueryCache.get ⟨10, 2, [(0, ⟨5, 0⟩)], 0, 0⟩ 0 1).1 = some 5 ∧
      (QueryCache.get ⟨10, 2, [(0, ⟨5, 0⟩)], 0, 0⟩ 0 1).2 =
        ⟨10, 2, [(0, ⟨5, 0⟩)], 1, 0⟩ := by
  have h := c3_get_ttl_semantics ⟨10, 2, [(0, ⟨5, 0⟩)], 0, 0⟩ 0 1 (by decide)
  have h1 := h.1 ⟨5, 0⟩ (by rfl) (by norm_num)
  exact h1

/-- **C4, counterexample.**  The claim quantifies over every `QueryCache`
with at most `max_size` entries and says a `set` on a cache already holding
`max_size` entries evicts exactly one entry and then inserts.  With
`max_size = 0` the empty cache already holds `max_size` entries, but
`QueryCache.set` (vector_db_pool.py lines 245-250) then calls Python's
`min` on an empty key sequence, which raises `ValueError`: nothing is
evicted and nothing is inserted. -/
theorem c4_counterexample :
    QueryCache.set ⟨0, 2, [], 0, 0⟩ 0 5 0 = none ∧
      ∀ c' : QueryCache, ¬(QueryCache.set ⟨0, 2, [], 0, 0⟩ 0 5 0 = some c') := by
  refine ⟨rfl, ?_⟩
  intro c' hc
  simp [QueryCache.set, oldestEntry] at hc

/-- **C4 (amended).**  For every `QueryCache` with unique keys, at most
`max_size` entries and `max_size ≥ 1`: `set` completes; the resulting entry
count never exceeds `max_size`; when the cache is exactly at capacity, `set`
removes exactly one entry — one holding a globally minimal insertion
timestamp — before inserting; and `get` and `invalidate` also leave the
entry count at most `max_size`. -/
theorem c4_capacity_eviction (c : QueryCache) (key v : Nat) (now : ℚ)
    (hnd : keysND c.cache) (hle : c.cache.length ≤ c.maxSize)
    (hpos : 1 ≤ c.maxSize) :
    (QueryCache.set c key v now).isSome = true ∧
    (∀ c', QueryCache.set c key v now = some c' →
        c'.cache.length ≤ c.maxSize) ∧
    (c.cache.length = c.maxSize →
        ∃ oldK oldE,
          lookupE c.cache oldK = some oldE ∧
          (∀ p ∈ c.cache, oldE.timestamp ≤ p.2.timestamp) ∧
          (eraseKey c.cache oldK).length + 1 = c.cache.length ∧
          QueryCache.set c key v now =
            some { c with
              cache := updateEntry (eraseKey c.cache oldK) key ⟨v, now⟩ }) ∧
    (QueryCache.get c key now).2.cache.length ≤ c.maxSize ∧
    (QueryCache.invalidate c key).cache.length ≤ c.maxSize := by
  have hgetlen : (QueryCache.get c key now).2.cache.length ≤ c.maxSize := by
    rcases hl : lookupE c.cache key with - | entry
    · rw [get_eq_absent hl]
      exact hle
    · by_cases hcond : now - entry.timestamp > c.ttlSeconds
      · rw [get_eq_stale hl hcond]
        exact le_trans (eraseKey_length_le _ _) hle
      · rw [get_eq_hit hl (not_lt.mp hcond)]
        exact hle
  have hinvlen : (QueryCache.invalidate c key).cache.length ≤ c.maxSize :=
    le_trans (eraseKey_length_le _ _) hle
  by_cases hcap : c.cache.length ≥ c.maxSize
  · have heq : c.cache.length = c.maxSize := le_antisymm hle hcap
    have hne : c.cache ≠ [] := by
      intro hnil
      rw [hnil] at heq
      simp at heq
      omega
    obtain ⟨⟨oldK, oldT⟩, holdest⟩ :=
      Option.isSome_iff_exists.mp (oldestEntry_isSome hne)
    obtain ⟨oldE, hmem, hts⟩ := oldestEntry_mem holdest
    have hlook : lookupE c.cache oldK = some oldE :=
      lookupE_eq_some_of_mem_nodup hnd hmem
    have hkmem : oldK ∈ keysOf c.cache :=
      List.mem_map.mpr ⟨(oldK, oldE), hmem, rfl⟩
    have herase := eraseKey_length_of_mem hkmem
    have hset : QueryCache.set c key v now =
        some { c with
          cache := updateEntry (eraseKey c.cache oldK) key ⟨v, now⟩ } :=
      set_eq_at_capacity hcap holdest
    refine ⟨by simp [hset], ?_, ?_, hgetlen, hinvlen⟩
    · intro c' hc'
      rw [hset] at hc'
      cases hc'
      simp only
      calc (updateEntry (eraseKey c.cache oldK) key ⟨v, now⟩).length
          ≤ (eraseKey c.cache oldK).length + 1 := updateEntry_length_le _ _ _
        _ = c.cache.length := herase
        _ ≤ c.maxSize := hle
    · intro _
      exact ⟨oldK, oldE, hlook, fun p hp => hts ▸ oldestEntry_min holdest p hp,
        herase, hset⟩
  · push_neg at hcap
    have hset : QueryCache.set c key v now =
        some { c with cache := updateEntry c.cache key ⟨v, now⟩ } :=
      set_eq_under_capacity hcap
    refine ⟨by simp [hset], ?_, ?_, hgetlen, hinvlen⟩
    · intro c' hc'
      rw [hset] at hc'
      cases hc'
      simp only
      calc (updateEntry c.cache key ⟨v, now⟩).length
          ≤ c.cache.length + 1 := updateEntry_length_le _ _ _
        _ ≤ c.maxSize := by omega
    · intro habs
      omega

/-- Witness for `c4_capacity_eviction`: a cache at capacity 2 holding two
entries; `set` evicts the entry with the older timestamp (key 4, time 1)
and inserts the new one. -/
theorem c4_capacity_eviction_witness :
    QueryCache.set ⟨2, 300, [(3, ⟨8, 5⟩), (4, ⟨9, 1⟩)], 0, 0⟩ 6 7 9 =
      some ⟨2, 300, [(3, ⟨8, 5⟩), (6, ⟨7, 9⟩)], 0, 0⟩ ∧
      (QueryCache.set ⟨2, 300, [(3, ⟨8, 5⟩), (4, ⟨9, 1⟩)], 0, 0⟩ 6 7 9).isSome
        = true := by
  have h := c4_capacity_eviction ⟨2, 300, [(3, ⟨8, 5⟩), (4, ⟨9, 1⟩)], 0, 0⟩ 6 7 9
    (by decide) (by decide) (by decide)
  refine ⟨?_, h.1⟩
  exact of_decide_eq_true (by with_unfolding_all rfl)

/-- **C5.**  For any `failure_threshold = N ≥ 1`, a breaker starting Closed
with `failure_count = 0` is still Closed after any fewer than `N`
consecutive `record_failure` calls with no intervening success, transitions
to Open exactly upon the `N`-th consecutive failure, and a success recorded
while Closed resets `failure_count` to 0. -/
theorem c5_threshold_opens (b : CircuitBreaker) (N : Nat) (t : ℚ)
    (hb : b.state = .closed) (hc : b.failureCount = 0)
    (hN : b.failureThreshold = N) (hpos : 1 ≤ N) :
    (∀ k, k < N → (b.iterateFailures k t).state = .closed) ∧
    (b.iterateFailures N t).state = .opened ∧
    (∀ b' : CircuitBreaker, b'.state = .closed →
      b'.recordSuccess.failureCount = 0) := by
  subst hN
  refine ⟨?_, ?_, ?_⟩
  · intro k hk
    obtain ⟨-, -, hst⟩ := iterateFailures_spec b t hb hc k (le_of_lt hk)
    rw [hst, if_neg (by omega)]
  · obtain ⟨-, -, hst⟩ :=
      iterateFailures_spec b t hb hc b.failureThreshold le_rfl
    rw [hst, if_pos (by omega)]
  · intro b' hb'
    rw [recordSuccess_closed_eq hb']

/-- Witness for `c5_threshold_opens` with `N = 3`: after two consecutive
failures the breaker is still Closed, the third opens it, and a success
while Closed resets the failure counter. -/
theorem c5_threshold_opens_witness :
    (CircuitBreaker.iterateFailures ⟨3, 2, 30, .closed, 0, 0, none⟩ 2 7).state
        = .closed ∧
      (CircuitBreaker.iterateFailures ⟨3, 2, 30, .closed, 0, 0, none⟩ 3 7).state
        = .opened ∧
      (CircuitBreaker.recordSuccess ⟨3, 2, 30, .closed, 2, 0, none⟩).failureCount
        = 0 := by
  have h := c5_threshold_opens ⟨3, 2, 30, .closed, 0, 0, none⟩ 3 7 rfl rfl rfl
    (by decide)
  exact ⟨h.1 2 (by decide), h.2.1, h.2.2 ⟨3, 2, 30, .closed, 2, 0, none⟩ rfl⟩

/-- **C6.**  While the breaker is Open with last failure at `t`, a
`can_execute` call at any `now` with `now - t < timeout_seconds` is denied
and leaves the state entirely unchanged; a call at any `now` with
`now - t ≥ timeout_seconds` is permitted and, as a side effect, moves the
breaker to HalfOpen with `success_count` reset to 0 (all other fields
unchanged). -/
theorem c6_open_cooldown (b : CircuitBreaker) (t now : ℚ)
    (hb : b.state = .opened) (hlft : b.lastFailureTime = some t) :
    (now - t < b.timeoutSeconds → b.canExecute now = some (false, b)) ∧
    (now - t ≥ b.timeoutSeconds →
      b.canExecute now =
        some (true, { b with state := .halfOpen, successCount := 0 })) := by
  exact ⟨fun hlt => canExecute_open_denied hb hlft hlt,
    fun hge => canExecute_open_allowed hb hlft hge⟩

/-- Witness for `c6_open_cooldown`: a breaker that opened at time 0 with a
30-second cooldown denies a call at time 10 unchanged, and at time 30 allows
it, moving to HalfOpen with `success_count` zeroed. -/
theorem c6_open_cooldown_witness :
    CircuitBreaker.canExecute ⟨5, 3, 30, .opened, 5, 2, some 0⟩ 10 =
        some (false, ⟨5, 3, 30, .opened, 5, 2, some 0⟩) ∧
      CircuitBreaker.canExecute ⟨5, 3, 30, .opened, 5, 2, some 0⟩ 30 =
        some (true, ⟨5, 3, 30, .halfOpen, 5, 0, some 0⟩) := by
  have h := c6_open_cooldown ⟨5, 3, 30, .opened, 5, 2, some 0⟩ 0 10 rfl rfl
  have h' := c6_open_cooldown ⟨5, 3, 30, .opened, 5, 2, some 0⟩ 0 30 rfl rfl
  exact ⟨h.1 (by norm_num), h'.2 (by norm_num)⟩

/-- **C10.**  A call denied by the circuit breaker (Open, cooldown not yet
elapsed) leaves the breaker's entire state unchanged: the cache-miss tail of
`search` raises `CircuitBreakerOpen`, the final breaker equals the initial
one field for field (state, `failure_count`, `success_count`,
`last_failure_time`), and the operation is never invoked, so no success or
failure is recorded for the denied call. -/
theorem c10_denied_frame (cache : Option QueryCache) (b : CircuitBreaker)
    (key : Nat) (useCache : Bool) (ops : Nat → OpOutcome) (now t : ℚ)
    (hb : b.state = .opened) (hlft : b.lastFailureTime = some t)
    (hlt : now - t < b.timeoutSeconds) :
    searchMiss cache b key useCache ops now =
      some ⟨.error .breakerOpen, invalidateOpt cache key, b, 0⟩ := by
  have hce := canExecute_open_denied hb hlft hlt
  simp only [searchMiss, hce]

/-- Witness for `c10_denied_frame`: a denied call at time 10 against a
breaker opened at time 0 re-raises `CircuitBreakerOpen` and returns the
breaker bit-for-bit unchanged with zero operation invocations. -/
theorem c10_denied_frame_witness :
    searchMiss (some ⟨10, 300, [], 0, 0⟩) ⟨5, 3, 30, .opened, 5, 2, some 0⟩ 0
        true (fun _ => .ok 42) 10 =
      some ⟨.error .breakerOpen, some ⟨10, 300, [], 0, 0⟩,
        ⟨5, 3, 30, .opened, 5, 2, some 0⟩, 0⟩ := by
  have h := c10_denied_frame (some ⟨10, 300, [], 0, 0⟩)
    ⟨5, 3, 30, .opened, 5, 2, some 0⟩ 0 true (fun _ => .ok 42) 10 0 rfl rfl
    (by norm_num)
  exact h

/-- **C7.**  `execute_with_retry` invokes the loop body at most
`max_retries + 1` times; every sleep sits between two consecutive attempts,
the `i`-th recorded sleep follows the transient failure of the 0-based
attempt `i` and lasts exactly `min(retry_base_delay * 2^i, retry_max_delay)`;
and when every attempt fails transiently the final exhausted attempt's
exception is re-raised with no sleep after it (exactly `max_retries`
sleeps in total). -/
theorem c7_retry_backoff (cfg : PoolCfg) (attempts : Nat → AttemptOutcome) :
    (executeWithRetry cfg attempts).invocations ≤ cfg.maxRetries + 1 ∧
    (∀ i d, ((executeWithRetry cfg attempts).sleeps)[i]? = some d →
        d = min (cfg.retryBaseDelay * 2 ^ i) cfg.retryMaxDelay ∧
        (attempts i).isTransient = true ∧ i < cfg.maxRetries) ∧
    ((∀ i, i ≤ cfg.maxRetries → (attempts i).isTransient = true) →
        (executeWithRetry cfg attempts).result =
          .error ((attempts cfg.maxRetries).exhaustErr) ∧
        (executeWithRetry cfg attempts).sleeps.length = cfg.maxRetries) := by
  have hinv := aux_invocations_le cfg attempts cfg.maxRetries 0
  refine ⟨hinv, ?_, ?_⟩
  · intro i d hd
    obtain ⟨h1, h2, h3⟩ := aux_sleeps_char cfg attempts cfg.maxRetries 0 i d hd
    rw [Nat.zero_add] at h1 h2
    exact ⟨h1, h2, h3⟩
  · intro hall
    have htr : ∀ i, i < cfg.maxRetries → (attempts (0 + i)).isTransient = true := by
      intro i hi
      rw [Nat.zero_add]
      exact hall i (le_of_lt hi)
    obtain ⟨s1, s2, -, -, -, -⟩ :=
      aux_transient_skip cfg attempts cfg.maxRetries 0 cfg.maxRetries le_rfl htr
    rw [Nat.zero_add, Nat.sub_self] at s1 s2
    have hlast := hall cfg.maxRetries le_rfl
    constructor
    · show (executeWithRetryAux cfg attempts 0 cfg.maxRetries).result = _
      rw [s1]
      rcases ho : attempts cfg.maxRetries with - | o
      · rw [aux_eq_acq_zero ho]
        rfl
      · rcases o with v | e | e
        · rw [ho] at hlast; simp [AttemptOutcome.isTransient] at hlast
        · rw [aux_eq_trans_zero ho]
          rfl
        · rw [ho] at hlast; simp [AttemptOutcome.isTransient] at hlast
    · show (executeWithRetryAux cfg attempts 0 cfg.maxRetries).sleeps.length = _
      rw [s2]
      rcases ho : attempts cfg.maxRetries with - | o
      · rw [aux_eq_acq_zero ho]
        show cfg.maxRetries + ([] : List ℚ).length = cfg.maxRetries
        simp
      · rcases o with v | e | e
        · rw [ho] at hlast; simp [AttemptOutcome.isTransient] at hlast
        · rw [aux_eq_trans_zero ho]
          show cfg.maxRetries + ([] : List ℚ).length = cfg.maxRetries
          simp
        · rw [ho] at hlast; simp [AttemptOutcome.isTransient] at hlast

/-- Witness for `c7_retry_backoff`: with `max_retries = 2`, `base = 1`,
`max_delay = 10` and every attempt failing transiently, the call makes at
most 3 invocations, sleeps exactly twice, and re-raises the exhausted
attempt's transient exception. -/
theorem c7_retry_backoff_witness :
    (executeWithRetry ⟨10, 30, 2, 1, 10⟩
        (fun _ => .opRun (.transientFail 9))).invocations ≤ 3 ∧
      (executeWithRetry ⟨10, 30, 2, 1, 10⟩
        (fun _ => .opRun (.transientFail 9))).result = .error (.transient 9) ∧
      (executeWithRetry ⟨10, 30, 2, 1, 10⟩
        (fun _ => .opRun (.transientFail 9))).sleeps.length = 2 := by
  have h := c7_retry_backoff ⟨10, 30, 2, 1, 10⟩
    (fun _ => .opRun (.transientFail 9))
  have h3 := h.2.2 (fun i _ => rfl)
  exact ⟨h.1, h3.1, h3.2⟩

/-- **C8.**  If the first non-transient outcome in the retry loop is a
permanent (non-retryable) error at attempt `j ≤ max_retries`, the call
raises exactly that error with no further attempts (at most `j + 1`
invocations), no sleep follows it (only the `j` sleeps of the preceding
transient attempts), it contributes exactly one failure sample (total
failure samples `j + 1`, successes 0), and `_healthy` is not reassigned by
the raising attempt. -/
theorem c8_permanent_no_retry (cfg : PoolCfg) (attempts : Nat → AttemptOutcome)
    (j e : Nat) (hperm : attempts j = .opRun (.permanentFail e))
    (htrans : ∀ i, i < j → (attempts i).isTransient = true)
    (hj : j ≤ cfg.maxRetries) :
    (executeWithRetry cfg attempts).result = .error (.permanent e) ∧
    (executeWithRetry cfg attempts).sleeps.length = j ∧
    (executeWithRetry cfg attempts).failSamples = j + 1 ∧
    (executeWithRetry cfg attempts).succSamples = 0 ∧
    (executeWithRetry cfg attempts).invocations ≤ j + 1 ∧
    (executeWithRetry cfg attempts).healthySet = none := by
  have htr : ∀ i, i < j → (attempts (0 + i)).isTransient = true := by
    intro i hi
    rw [Nat.zero_add]
    exact htrans i hi
  obtain ⟨s1, s2, s3, s4, s5, s6⟩ :=
    aux_transient_skip cfg attempts j 0 cfg.maxRetries hj htr
  rw [Nat.zero_add] at s1 s2 s3 s4 s5 s6
  have hleaf : executeWithRetryAux cfg attempts j (cfg.maxRetries - j) =
      ⟨.error (.permanent e), [], 1, 0, 1, none⟩ := aux_eq_perm hperm
  refine ⟨?_, ?_, ?_, ?_, ?_, ?_⟩
  · show (executeWithRetryAux cfg attempts 0 cfg.maxRetries).result = _
    rw [s1, hleaf]
  · show (executeWithRetryAux cfg attempts 0 cfg.maxRetries).sleeps.length = _
    rw [s2, hleaf]
    show j + ([] : List ℚ).length = j
    simp
  · show (executeWithRetryAux cfg attempts 0 cfg.maxRetries).failSamples = _
    rw [s3, hleaf]
  · show (executeWithRetryAux cfg attempts 0 cfg.maxRetries).succSamples = _
    rw [s4, hleaf]
  · show (executeWithRetryAux cfg attempts 0 cfg.maxRetries).invocations ≤ j + 1
    refine le_trans s5 ?_
    rw [hleaf]
  · show (executeWithRetryAux cfg attempts 0 cfg.maxRetries).healthySet = _
    rw [s6, hleaf]

/-- Witness for `c8_permanent_no_retry`: a permanent error on the very
first attempt (with `max_retries = 3`) propagates immediately with no
sleeps, one invocation and exactly one failure sample. -/
theorem c8_permanent_no_retry_witness :
    (executeWithRetry ⟨10, 30, 3, 1, 10⟩
        (fun _ => .opRun (.permanentFail 4))).result = .error (.permanent 4) ∧
      (executeWithRetry ⟨10, 30, 3, 1, 10⟩
        (fun _ => .opRun (.permanentFail 4))).sleeps.length = 0 ∧
      (executeWithRetry ⟨10, 30, 3, 1, 10⟩
        (fun _ => .opRun (.permanentFail 4))).failSamples = 1 ∧
      (executeWithRetry ⟨10, 30, 3, 1, 10⟩
        (fun _ => .opRun (.permanentFail 4))).invocations ≤ 1 := by
  have h := c8_permanent_no_retry ⟨10, 30, 3, 1, 10⟩
    (fun _ => .opRun (.permanentFail 4)) 0 4 rfl
    (fun i hi => absurd hi (Nat.not_lt_zero i)) (by omega)
  exact ⟨h.1, h.2.1, h.2.2.1, h.2.2.2.2.1⟩

end Claims

namespace VectorDbBridge

open VectorDbPool

theorem search_eq_hit {c c' : QueryCache} {b : CircuitBreaker} {key : Nat}
    {ops : Nat → OpOutcome} {now : ℚ} {v : Nat}
    (hget : QueryCache.get c key now = (some v, c')) :
    search (some c) b key true ops now = some ⟨.ok v, some c', b, 0⟩ := by
  simp only [search, hget]

theorem search_eq_miss {c c1 : QueryCache} {b : CircuitBreaker} {key : Nat}
    {ops : Nat → OpOutcome} {now : ℚ}
    (hget : QueryCache.get c key now = (none, c1)) :
    search (some c) b key true ops now =
      searchMiss (some c1) b key true ops now := by
  simp only [search, hget]

theorem searchMiss_eq_ok {cache cache' : Option QueryCache}
    {b b1 : CircuitBreaker} {key : Nat} {useCache : Bool}
    {ops : Nat → OpOutcome} {now : ℚ} {v : Nat}
    (hce : b.canExecute now = some (true, b1))
    (hrun : runOperation cache useCache key (ops 0) now = .ok (v, cache')) :
    searchMiss cache b key useCache ops now =
      some ⟨.ok v, cache', b1.recordSuccess, 1⟩ := by
  simp only [searchMiss, hce, hrun]

theorem searchMiss_eq_err {cache : Option QueryCache} {b b1 : CircuitBreaker}
    {key : Nat} {useCache : Bool} {ops : Nat → OpOutcome} {now : ℚ} {exc : Exc}
    (hce : b.canExecute now = some (true, b1))
    (hrun : runOperation cache useCache key (ops 0) now = .error exc) :
    searchMiss cache b key useCache ops now =
      some ⟨.error exc, invalidateOpt cache key, b1.recordFailure now, 1⟩ := by
  simp only [searchMiss, hce, hrun]

theorem runOperation_eq_ok_set {c c2 : QueryCache} {key v : Nat} {now : ℚ}
    {o : OpOutcome} (hop : o = .ok v)
    (hset : QueryCache.set c key v now = some c2) :
    runOperation (some c) true key o now = .ok (v, some c2) := by
  subst hop
  simp only [runOperation, hset]

theorem runOperation_eq_transient {cache : Option QueryCache} {key e : Nat}
    {useCache : Bool} {now : ℚ} {o : OpOutcome} (hop : o = .transientFail e) :
    runOperation cache useCache key o now = .error (.opTransient e) := by
  subst hop
  rfl

theorem runOperation_eq_permanent {cache : Option QueryCache} {key e : Nat}
    {useCache : Bool} {now : ℚ} {o : OpOutcome} (hop : o = .permanentFail e) :
    runOperation cache useCache key o now = .error (.opPermanent e) := by
  subst hop
  rfl

end VectorDbBridge

namespace Claims

open VectorDbPool VectorDbBridge OdbcBridge

/-- **C1, counterexample.**  The claim says a cacheable read that misses the
cache goes breaker-guard → `ConnectionPool.execute_with_retry` → operation,
so that transient failures are retried.  In the code
(vector_db_bridge.py lines 532-533) `search` calls only
`_with_circuit_breaker(operation)` and never `_with_retry`: with a pool
allowing 3 retries and an operation that fails transiently once and would
succeed on the second invocation, the pipeline the claim describes returns
the success (2 invocations), while `search` invokes the operation exactly
once and re-raises the transient error. -/
theorem c1_counterexample :
    (searchSpecPipeline (some ⟨10, 300, [], 0, 0⟩)
        ⟨5, 3, 30, .closed, 0, 0, none⟩ ⟨10, 30, 3, 1, 10⟩ 0 true
        (fun n => if n = 0 then .transientFail 7 else .ok 42) 0).map
        SpecRes.result = some (.ok 42) ∧
      (searchSpecPipeline (some ⟨10, 300, [], 0, 0⟩)
        ⟨5, 3, 30, .closed, 0, 0, none⟩ ⟨10, 30, 3, 1, 10⟩ 0 true
        (fun n => if n = 0 then .transientFail 7 else .ok 42) 0).map
        SpecRes.invocations = some 2 ∧
      (VectorDbBridge.search (some ⟨10, 300, [], 0, 0⟩)
        ⟨5, 3, 30, .closed, 0, 0, none⟩ 0 true
        (fun n => if n = 0 then .transientFail 7 else .ok 42) 0).map
        SearchRes.result = some (.error (.opTransient 7)) ∧
      (VectorDbBridge.search (some ⟨10, 300, [], 0, 0⟩)
        ⟨5, 3, 30, .closed, 0, 0, none⟩ 0 true
        (fun n => if n = 0 then .transientFail 7 else .ok 42) 0).map
        SearchRes.invocations = some 1 :=
  of_decide_eq_true (by with_unfolding_all rfl)

/-- **C1 (amended).**  For a cacheable read whose cache lookup misses,
`search` invokes the operation through the circuit-breaker guard only — the
resource pool's retry executor is not involved, the operation runs exactly
once — and on success the result is written through to the cache (inside
the guarded operation) and returned; a transiently failing operation is not
retried: its exception escapes after the single invocation. -/
theorem c1_miss_breaker_only (c c1 : QueryCache) (b b1 : CircuitBreaker)
    (key : Nat) (ops : Nat → OpOutcome) (now : ℚ)
    (hget : QueryCache.get c key now = (none, c1))
    (hce : b.canExecute now = some (true, b1)) :
    (∀ v c2, ops 0 = .ok v → QueryCache.set c1 key v now = some c2 →
      VectorDbBridge.search (some c) b key true ops now =
        some ⟨.ok v, some c2, b1.recordSuccess, 1⟩) ∧
    (∀ e, ops 0 = .transientFail e →
      VectorDbBridge.search (some c) b key true ops now =
        some ⟨.error (.opTransient e), some (c1.invalidate key),
          b1.recordFailure now, 1⟩) := by
  have hs : VectorDbBridge.search (some c) b key true ops now =
      searchMiss (some c1) b key true ops now := search_eq_miss hget
  constructor
  · intro v c2 hop hset
    rw [hs, searchMiss_eq_ok hce (runOperation_eq_ok_set hop hset)]
  · intro e hop
    rw [hs, searchMiss_eq_err hce (runOperation_eq_transient hop)]
    rfl

/-- Witness for `c1_miss_breaker_only`: a miss against an empty cache with a
closed breaker and a succeeding operation returns the backend value, caches
it, records one breaker success, and invokes the operation exactly once. -/
theorem c1_miss_breaker_only_witness :
    VectorDbBridge.search (some ⟨10, 300, [], 0, 0⟩)
        ⟨5, 3, 30, .closed, 0, 0, none⟩ 0 true (fun _ => .ok 42) 0 =
      some ⟨.ok 42, some ⟨10, 300, [(0, ⟨42, 0⟩)], 0, 1⟩,
        ⟨5, 3, 30, .closed, 0, 0, none⟩, 1⟩ := by
  have h := c1_miss_breaker_only ⟨10, 300, [], 0, 0⟩ ⟨10, 300, [], 0, 1⟩
    ⟨5, 3, 30, .closed, 0, 0, none⟩ ⟨5, 3, 30, .closed, 0, 0, none⟩ 0
    (fun _ => .ok 42) 0 rfl rfl
  exact h.1 42 ⟨10, 300, [(0, ⟨42, 0⟩)], 0, 1⟩ rfl rfl

/-- **C9.**  On a cacheable read, any exception escaping the breaker guard
(transient or permanent backend exception) makes `search` invalidate the
cache entry for the read's key and re-raise the original exception
unchanged: the result carries exactly the operation's exception, the key is
absent from the final cache, and `invalidate` is a no-op when the entry is
already absent. -/
theorem c9_invalidate_reraise (c c1 : QueryCache) (b b1 : CircuitBreaker)
    (key : Nat) (ops : Nat → OpOutcome) (now : ℚ)
    (hnd : keysND c.cache)
    (hget : QueryCache.get c key now = (none, c1))
    (hce : b.canExecute now = some (true, b1)) :
    (∀ e, ops 0 = .transientFail e →
      VectorDbBridge.search (some c) b key true ops now =
        some ⟨.error (.opTransient e), some (c1.invalidate key),
          b1.recordFailure now, 1⟩ ∧
      lookupE (c1.invalidate key).cache key = none) ∧
    (∀ e, ops 0 = .permanentFail e →
      VectorDbBridge.search (some c) b key true ops now =
        some ⟨.error (.opPermanent e), some (c1.invalidate key),
          b1.recordFailure now, 1⟩ ∧
      lookupE (c1.invalidate key).cache key = none) ∧
    (∀ q : QueryCache, ∀ k, lookupE q.cache k = none →
      QueryCache.invalidate q k = q) := by
  have hnd1 : keysND c1.cache := by
    have h := keysND_get hnd key now
    rw [hget] at h
    exact h
  have hs : VectorDbBridge.search (some c) b key true ops now =
      searchMiss (some c1) b key true ops now := search_eq_miss hget
  have habs : lookupE (c1.invalidate key).cache key = none :=
    lookupE_eraseKey_self hnd1 key
  refine ⟨?_, ?_, ?_⟩
  · intro e hop
    rw [hs, searchMiss_eq_err hce (runOperation_eq_transient hop)]
    exact ⟨rfl, habs⟩
  · intro e hop
    rw [hs, searchMiss_eq_err hce (runOperation_eq_permanent hop)]
    exact ⟨rfl, habs⟩
  · intro q k hlk
    show { q with cache := eraseKey q.cache k } = q
    rw [eraseKey_of_lookup_none hlk]

/-- Witness for `c9_invalidate_reraise`: a transiently failing operation
behind a closed breaker makes `search` re-raise that exact exception, with
the read's key absent from the final cache and one breaker failure
recorded. -/
theorem c9_invalidate_reraise_witness :
    VectorDbBridge.search (some ⟨10, 300, [], 0, 0⟩)
        ⟨5, 3, 30, .closed, 0, 0, none⟩ 0 true (fun _ => .transientFail 7) 0 =
      some ⟨.error (.opTransient 7), some ⟨10, 300, [], 0, 1⟩,
        ⟨5, 3, 30, .closed, 1, 0, some 0⟩, 1⟩ ∧
      lookupE ((⟨10, 300, [], 0, 1⟩ : QueryCache).invalidate 0).cache 0 =
        none := by
  have h := c9_invalidate_reraise ⟨10, 300, [], 0, 0⟩ ⟨10, 300, [], 0, 1⟩
    ⟨5, 3, 30, .closed, 0, 0, none⟩ ⟨5, 3, 30, .closed, 0, 0, none⟩ 0
    (fun _ => .transientFail 7) 0 (by decide) rfl rfl
  have h1 := h.1 7 rfl
  exact ⟨h1.1, h1.2⟩

/-- **C2, counterexample.**  The claim says `active_count` reflects the
number of connections currently checked out and decreases when a connection
is returned.  In the code (odbc_bridge.py lines 78-82) `return_connection`
only re-queues the connection and never decrements `_active`: after
acquiring the single created connection (`active = 1`) and returning it,
`active_count` is still 1, not 0 — it does not decrease. -/
theorem c2_counterexample :
    OdbcBridge.ConnectionPool.getConnection ⟨10, [], 0⟩ =
        .ok (0, ⟨10, [], 1⟩) ∧
      (OdbcBridge.ConnectionPool.returnConnection ⟨10, [], 1⟩ 0).availableCount
        = 1 ∧
      (OdbcBridge.ConnectionPool.returnConnection ⟨10, [], 1⟩ 0).active = 1 ∧
      ¬((OdbcBridge.ConnectionPool.returnConnection ⟨10, [], 1⟩ 0).active <
        (⟨10, [], 1⟩ : OdbcBridge.ConnectionPool).active) := by
  refine ⟨rfl, rfl, rfl, ?_⟩
  decide

/-- **C2 (amended).**  `return_connection` re-queues the connection whenever
`_active > 0` (which holds after every successful `get_connection`, given
the pool invariant `available ≤ active`), increasing `available_count` by
exactly one; `active_count` counts created connections and is unchanged by a
return; and each `PooledConnection.close` performs at most one return: the
first close returns the connection, any further close is a no-op. -/
theorem c2_return_bookkeeping (p : OdbcBridge.ConnectionPool) (c : Nat) :
    (0 < p.active →
      (p.returnConnection c).availableCount = p.availableCount + 1 ∧
      (p.returnConnection c).active = p.active) ∧
    (∀ c' q, p.pool.length ≤ p.active →
      p.getConnection = .ok (c', q) → 0 < q.active) ∧
    closePooled p c false = (p.returnConnection c, true) ∧
    (∀ q : OdbcBridge.ConnectionPool, closePooled q c true = (q, true)) := by
  refine ⟨?_, ?_, ?_, ?_⟩
  · intro hact
    unfold OdbcBridge.ConnectionPool.returnConnection
    rw [if_pos hact]
    exact ⟨rfl, rfl⟩
  · intro c' q hinv hget
    unfold OdbcBridge.ConnectionPool.getConnection at hget
    cases hp : p.pool with
    | cons x rest =>
      rw [hp] at hget
      cases hget
      rw [hp] at hinv
      simp only [List.length_cons] at hinv
      show 0 < p.active
      omega
    | nil =>
      rw [hp] at hget
      by_cases hmax : p.active ≥ p.maxPoolSize
      · rw [if_pos hmax] at hget
        cases hget
      · rw [if_neg hmax] at hget
        cases hget
        show 0 < p.active + 1
        omega
  · unfold closePooled
    rw [if_neg Bool.false_ne_true]
  · intro q
    unfold closePooled
    rw [if_pos rfl]

/-- Witness for `c2_return_bookkeeping`: a pool with one idle and two
created connections; returning a connection raises `available_count` from 1
to 2 while `active_count` stays 2, a successful acquisition leaves a
positive active count, and double-closing a pooled connection returns it
only once. -/
theorem c2_return_bookkeeping_witness :
    (OdbcBridge.ConnectionPool.returnConnection ⟨10, [5], 2⟩ 7).availableCount
        = 2 ∧
      (OdbcBridge.ConnectionPool.returnConnection ⟨10, [5], 2⟩ 7).active = 2 ∧
      closePooled ⟨10, [5], 2⟩ 7 false =
        (OdbcBridge.ConnectionPool.returnConnection ⟨10, [5], 2⟩ 7, true) ∧
      closePooled ⟨10, [7, 5], 2⟩ 7 true = (⟨10, [7, 5], 2⟩, true) := by
  have h := c2_return_bookkeeping ⟨10, [5], 2⟩ 7
  have h1 := h.1 (by decide)
  exact ⟨h1.1, h1.2, h.2.2.1, h.2.2.2 ⟨10, [7, 5], 2⟩⟩

end Claims

section Scratch
open VectorDbPool

example :
    (QueryCache.get ⟨10, 1, [(0, ⟨5, 0⟩)], 0, 0⟩ 0 1).fst = some 5 :=
  of_decide_eq_true (by with_unfolding_all rfl)

example :
    QueryCache.set ⟨0, 1, [], 0, 0⟩ 0 5 0 = none := by rfl

example :
    (QueryCache.set ⟨1, 1, [(7, ⟨5, 0⟩)], 0, 0⟩ 3 9 2) =
      some ⟨1, 1, [(3, ⟨9, 2⟩)], 0, 0⟩ :=
  of_decide_eq_true (by with_unfolding_all rfl)

example :
    executeWithRetry ⟨10, 30, 2, 1, 10⟩
        (fun n => if n = 0 then .opRun (.transientFail 7) else .opRun (.ok 42)) =
      ⟨.ok 42, [1], 2, 1, 1, some true⟩ :=
  of_decide_eq_true (by with_unfolding_all rfl)

example :
    executeWithRetry ⟨10, 30, 2, 1, 10⟩ (fun _ => .opRun (.transientFail 9)) =
      ⟨.error (.transient 9), [1, 2], 3, 0, 3, some false⟩ :=
  of_decide_eq_true (by with_unfolding_all rfl)

example :
    executeWithRetry ⟨10, 30, 3, 1, 10⟩ (fun _ => .opRun (.permanentFail 4)) =
      ⟨.error (.permanent 4), [], 1, 0, 1, none⟩ :=
  of_decide_eq_true (by with_unfolding_all rfl)

example :
    (CircuitBreaker.iterateFailures ⟨3, 2, 30, .closed, 0, 0, none⟩ 3 5).state =
      .opened := by rfl

example :
    CircuitBreaker.canExecute ⟨3, 2, 30, .opened, 3, 0, some 0⟩ 31 =
      some (true, ⟨3, 2, 30, .halfOpen, 3, 0, some 0⟩) :=
  of_decide_eq_true (by with_unfolding_all rfl)

end Scratch
